import Mathlib

/-!
Verification of the Elytra control plane (apps/server/src/index.ts) against its
natural-language specification.  The server's data model and the operational
core (result merging, job registry updates on worker messages, job dispatch,
dataset catalog persistence, dataset deletion and the age-based reaper) are
shallowly embedded below; JavaScript `Map`s become association lists with
`Map`-faithful get/set/delete, JSON values become the inductive `JVal`,
the `new Function` evaluation of serialized reducers becomes an explicit
evaluation oracle `ev : String → JVal → JVal → JVal`, and filesystem outcomes
become explicit `Except` parameters.
-/

/-- JSON-ish values exchanged between workers and the coordinator
(numbers, strings, arrays). -/
inductive JVal where
  | num (n : Int)
  | str (s : String)
  | arr (elems : List JVal)

mutual

/-- Boolean equality on `JVal` (used to derive decidable equality). -/
def jvalBeq : JVal → JVal → Bool
  | .num a, .num b => a == b
  | .str a, .str b => a == b
  | .arr a, .arr b => jvalListBeq a b
  | _, _ => false

/-- Boolean equality on lists of `JVal`. -/
def jvalListBeq : List JVal → List JVal → Bool
  | [], [] => true
  | x :: xs, y :: ys => jvalBeq x y && jvalListBeq xs ys
  | _, _ => false

end

mutual

theorem jvalBeq_iff : ∀ a b : JVal, jvalBeq a b = true ↔ a = b
  | .num a, .num b => by simp [jvalBeq]
  | .num _, .str _ => by simp [jvalBeq]
  | .num _, .arr _ => by simp [jvalBeq]
  | .str _, .num _ => by simp [jvalBeq]
  | .str a, .str b => by simp [jvalBeq]
  | .str _, .arr _ => by simp [jvalBeq]
  | .arr _, .num _ => by simp [jvalBeq]
  | .arr _, .str _ => by simp [jvalBeq]
  | .arr a, .arr b => by simp [jvalBeq, jvalListBeq_iff a b]

theorem jvalListBeq_iff : ∀ a b : List JVal, jvalListBeq a b = true ↔ a = b
  | [], [] => by simp [jvalListBeq]
  | [], _ :: _ => by simp [jvalListBeq]
  | _ :: _, [] => by simp [jvalListBeq]
  | x :: xs, y :: ys => by
      simp [jvalListBeq, jvalBeq_iff x y, jvalListBeq_iff xs ys]

end

instance : DecidableEq JVal :=
  fun a b => decidable_of_iff (jvalBeq a b = true) (jvalBeq_iff a b)

/-- Operation descriptors as produced by the client SDK (packages/core/src/dataset.ts):
`map`/`filter` carry a serialized function body, `reduce` carries a serialized
reducer and an initial value, `count` carries nothing.  `otherOp` stands for any
other `type` tag a JSON request could carry (the server does not validate ops). -/
inductive Op where
  | map (fn : String)
  | filter (fn : String)
  | count
  | reduce (fn : String) (initialValue : JVal)
  | otherOp (tag : String)
deriving DecidableEq

mutual

/-- JavaScript `String(v)` coercion on `JVal` (used by `+` when an operand is
not a number: arrays join their elements with commas). -/
def jvalToStr : JVal → String
  | .num n => toString n
  | .str s => s
  | .arr xs => jvalListToStr xs

/-- Comma-joined rendering of an array's elements (JS `Array.prototype.toString`). -/
def jvalListToStr : List JVal → String
  | [] => ""
  | [x] => jvalToStr x
  | x :: y :: rest => jvalToStr x ++ "," ++ jvalListToStr (y :: rest)

end

/-- JavaScript binary `+` on our value space: numeric addition when both
operands are numbers, otherwise string concatenation of the coercions. -/
def jsAdd : JVal → JVal → JVal
  | .num a, .num b => .num (a + b)
  | a, b => .str (jvalToStr a ++ jvalToStr b)

/-- One level of `Array.prototype.flat`: an array element is spread,
any other element is kept as-is. -/
def jsFlatOne : JVal → List JVal
  | .arr xs => xs
  | v => [v]

/-- `mergeResults(partials, ops)` of index.ts:357-372.  `partials` is the job's
slot array (`none` = array hole, skipped by JS `reduce` and `flat`); `ev`
models `new Function("return " + lastOp.fn)()`.  Inspects only the last op:
`count` sums the partials from 0, `reduce` folds them from the initial value,
anything else (including an empty ops list) returns `partials.flat()`. -/
def mergeResults (ev : String → JVal → JVal → JVal)
    (partials : List (Option JVal)) (ops : List Op) : JVal :=
  let present := partials.filterMap id
  match ops.getLast? with
  | some Op.count => present.foldl jsAdd (JVal.num 0)
  | some (Op.reduce fn init) => present.foldl (ev fn) init
  | _ => JVal.arr (present.flatMap jsFlatOne)

theorem filterMap_id_map_some (l : List JVal) :
    (l.map some).filterMap id = l := by
  induction l with
  | nil => rfl
  | cons x xs ih => simp [ih]

theorem foldl_jsAdd_nums (ns : List Int) (a : Int) :
    (ns.map JVal.num).foldl jsAdd (JVal.num a) = JVal.num (a + ns.sum) := by
  induction ns generalizing a with
  | nil => simp
  | cons x xs ih => simp [jsAdd, ih, add_assoc]

theorem flatMap_jsFlatOne_arrs (ls : List (List JVal)) :
    (ls.map JVal.arr).flatMap jsFlatOne = ls.flatten := by
  induction ls with
  | nil => rfl
  | cons x xs ih => simp [jsFlatOne, ih]

/-- C1: the merge step inspects only the final operation of the job's ops
list: a final `count` yields the numeric sum of the partials, a final `reduce`
yields the fold of the partials by the supplied reducer from the supplied
initial value, and any other final kind — or an empty ops list — yields the
concatenation of the partials in chunkId order into one flat sequence. -/
theorem merge_policy (ev : String → JVal → JVal → JVal) (ops : List Op)
    (vals : List JVal) :
    (ops.getLast? = some Op.count →
      ∀ ns : List Int, vals = ns.map JVal.num →
        mergeResults ev (vals.map some) ops = JVal.num ns.sum)
    ∧ (∀ fn init, ops.getLast? = some (Op.reduce fn init) →
        mergeResults ev (vals.map some) ops = vals.foldl (ev fn) init)
    ∧ ((∀ fn init, ops.getLast? ≠ some (Op.reduce fn init)) →
        ops.getLast? ≠ some Op.count →
        ∀ ls : List (List JVal), vals = ls.map JVal.arr →
          mergeResults ev (vals.map some) ops = JVal.arr ls.flatten) := by
  refine ⟨fun hc ns hv => ?_, fun fn init hr => ?_, fun hnr hnc ls hv => ?_⟩
  · subst hv
    simp [mergeResults, hc, filterMap_id_map_some, foldl_jsAdd_nums]
  · simp [mergeResults, hr, filterMap_id_map_some]
  · subst hv
    rcases hlast : ops.getLast? with _ | op
    · simp [mergeResults, hlast, filterMap_id_map_some, flatMap_jsFlatOne_arrs]
    · cases op with
      | count => exact absurd hlast hnc
      | reduce fn init => exact absurd hlast (hnr fn init)
      | map fn =>
        simp [mergeResults, hlast, filterMap_id_map_some, flatMap_jsFlatOne_arrs]
      | filter fn =>
        simp [mergeResults, hlast, filterMap_id_map_some, flatMap_jsFlatOne_arrs]
      | otherOp tag =>
        simp [mergeResults, hlast, filterMap_id_map_some, flatMap_jsFlatOne_arrs]

/-- Witness for C1: spec scenario 1 (a `count` pipeline with partials 3, 7, 5
merges to 15), obtained by instantiating `merge_policy`. -/
theorem merge_policy_witness :
    ([Op.count].getLast? = some Op.count)
    ∧ mergeResults (fun _ _ b => b)
        ([JVal.num 3, JVal.num 7, JVal.num 5].map some) [Op.count]
      = JVal.num ([3, 7, 5] : List Int).sum :=
  ⟨rfl, (merge_policy (fun _ _ b => b) [Op.count]
      [JVal.num 3, JVal.num 7, JVal.num 5]).1 rfl [3, 7, 5] rfl⟩

/-! ## JavaScript `Map` as an association list

The server keeps `jobs : Map<number, Job>` and `datasets : Map<string, DatasetMeta>`.
We embed a `Map` as its entry list in insertion order, with `Map.get`,
`Map.set` (update in place or append) and `Map.delete` semantics. -/

/-- `Map.get`: the value of the first entry with the given key. -/
def mapGet [DecidableEq κ] (m : List (κ × α)) (k : κ) : Option α :=
  (m.find? fun p => p.1 == k).map Prod.snd

/-- `Map.set`: replace the value at an existing key in place, else append. -/
def mapSet [DecidableEq κ] (m : List (κ × α)) (k : κ) (v : α) : List (κ × α) :=
  if (mapGet m k).isSome then
    m.map fun p => if p.1 == k then (k, v) else p
  else
    m ++ [(k, v)]

/-- `Map.delete`: remove the entry with the given key. -/
def mapDelete [DecidableEq κ] (m : List (κ × α)) (k : κ) : List (κ × α) :=
  m.filter fun p => !(p.1 == k)

/-! ## Job registry and worker messages (index.ts:296-351) -/

/-- One entry of `jobs` (index.ts:298-308): the pipeline, the partials slot
array (`none` = never written), and the expected/completed task counters.
The `resolve`/`reject` continuations are represented by the `JobEvent`s the
message handler emits. -/
structure JobState where
  ops : List Op
  partials : List (Option JVal)
  expectedChunks : Nat
  completedChunks : Nat
deriving DecidableEq

/-- A call of a job's one-shot resolver: `resolve(mergedResult)` or
`reject(new Error(error))`. -/
inductive JobEvent where
  | resolved (jobId : Nat) (result : JVal)
  | rejected (jobId : Nat) (error : String)
deriving DecidableEq

/-- Inbound worker frames after `JSON.parse` (index.ts:320): the two kinds the
scheduler matches on, plus `worker_progress` telemetry and any other tag,
which fall through both `if`s untouched. -/
inductive WsMsg where
  | chunk_result (jobId : Nat) (chunkId : Nat) (result : JVal)
  | chunk_error (jobId : Nat) (error : String)
  | worker_progress (payload : String)
  | other (tag : String)
deriving DecidableEq

/-- `partials[chunkId] = result` on a JS array: in-range writes update the
slot, an out-of-range write grows the array with holes up to the index. -/
def arraySet (xs : List (Option JVal)) (i : Nat) (v : Option JVal) :
    List (Option JVal) :=
  if i < xs.length then xs.set i v
  else xs ++ List.replicate (i - xs.length) none ++ [v]

/-- The jobs registry. -/
abbrev Jobs := List (Nat × JobState)

/-- The `ws.on("message")` handler (index.ts:318-346): `chunk_result` writes
the partial into its slot, bumps `completedChunks`, and on
`completed == expected` merges, resolves and deletes the job; `chunk_error`
rejects and deletes the job if it is still present; everything else (including
`worker_progress`) leaves the registry untouched. -/
def handleMessage (ev : String → JVal → JVal → JVal) (jobs : Jobs) :
    WsMsg → Jobs × List JobEvent
  | .chunk_result jobId chunkId result =>
    match mapGet jobs jobId with
    | none => (jobs, [])
    | some job =>
      let job' : JobState :=
        { job with
          partials := arraySet job.partials chunkId (some result)
          completedChunks := job.completedChunks + 1 }
      if job'.completedChunks = job'.expectedChunks then
        (mapDelete jobs jobId,
         [.resolved jobId (mergeResults ev job'.partials job'.ops)])
      else
        (mapSet jobs jobId job', [])
  | .chunk_error jobId error =>
    match mapGet jobs jobId with
    | none => (jobs, [])
    | some _ => (mapDelete jobs jobId, [.rejected jobId error])
  | .worker_progress _ => (jobs, [])
  | .other _ => (jobs, [])

/-- Sequential processing of a list of inbound frames, accumulating every
resolver call in order. -/
def runMessages (ev : String → JVal → JVal → JVal) (jobs : Jobs) :
    List WsMsg → Jobs × List JobEvent
  | [] => (jobs, [])
  | m :: rest =>
    let out := handleMessage ev jobs m
    let r := runMessages ev out.1 rest
    (r.1, out.2 ++ r.2)


theorem mapGet_cons [DecidableEq κ] (p : κ × α) (t : List (κ × α)) (k : κ) :
    mapGet (p :: t) k = if p.1 = k then some p.2 else mapGet t k := by
  by_cases h : p.1 = k <;> simp [mapGet, List.find?_cons, h]

theorem mapGet_nil [DecidableEq κ] (k : κ) :
    mapGet ([] : List (κ × α)) k = none := rfl

theorem mapGet_mapDelete_self [DecidableEq κ] (m : List (κ × α)) (k : κ) :
    mapGet (mapDelete m k) k = none := by
  induction m with
  | nil => rfl
  | cons p t ih =>
    by_cases hp : p.1 = k
    · simpa [mapDelete, List.filter_cons, hp] using ih
    · simpa [mapDelete, List.filter_cons, hp, mapGet_cons] using ih

theorem mapGet_mapDelete_ne [DecidableEq κ] (m : List (κ × α)) (k k' : κ)
    (h : k ≠ k') : mapGet (mapDelete m k) k' = mapGet m k' := by
  induction m with
  | nil => rfl
  | cons p t ih =>
    have ih' : mapGet (List.filter (fun q => !(q.1 == k)) t) k' = mapGet t k' := by
      simpa [mapDelete] using ih
    by_cases hp : p.1 = k
    · have hp' : ¬p.1 = k' := by rw [hp]; exact h
      simp [mapDelete, List.filter_cons, hp, mapGet_cons, hp', h, ih']
    · by_cases hp' : p.1 = k' <;>
        simp [mapDelete, List.filter_cons, hp, mapGet_cons, hp', h, Ne.symm h, ih']

theorem mapGet_mapSet_ne [DecidableEq κ] (m : List (κ × α)) (k k' : κ) (v : α)
    (h : k ≠ k') : mapGet (mapSet m k v) k' = mapGet m k' := by
  have hmap : ∀ t : List (κ × α),
      mapGet (t.map fun p => if p.1 = k then (k, v) else p) k' = mapGet t k' := by
    intro t
    induction t with
    | nil => rfl
    | cons p t ih =>
      by_cases hp : p.1 = k
      · have hp' : ¬p.1 = k' := by rw [hp]; exact h
        simp [List.map_cons, hp, mapGet_cons, hp', h, Ne.symm h, ih]
      · by_cases hp' : p.1 = k' <;>
          simp [List.map_cons, hp, mapGet_cons, hp', h, Ne.symm h, ih]
  have happ : mapGet (m ++ [(k, v)]) k' = mapGet m k' := by
    induction m with
    | nil => simp [mapGet_cons, mapGet_nil, h]
    | cons p t ih =>
      by_cases hp' : p.1 = k' <;> simp [List.cons_append, mapGet_cons, hp', ih]
  unfold mapSet
  by_cases hs : (mapGet m k).isSome <;> simp [hs, hmap, happ]

/-- A job as registered by the dispatcher (index.ts:424-431): the request's
ops, a fresh hole-array of size `n`, `expectedChunks = n`, no completions. -/
def freshJob (ops : List Op) (n : Nat) : JobState :=
  ⟨ops, List.replicate n none, n, 0⟩

/-- A batch of `chunk_result` frames for one job, one per `(chunkId, partial)`
pair, in arrival order. -/
def crMsgs (jid : Nat) (ms : List (Nat × JVal)) : List WsMsg :=
  ms.map fun m => .chunk_result jid m.1 m.2

/-- The slot writes performed by a batch of `(chunkId, partial)` pairs. -/
def writeAll (p : List (Option JVal)) (ms : List (Nat × JVal)) :
    List (Option JVal) :=
  ms.foldl (fun q m => arraySet q m.1 (some m.2)) p

/-- The canonical batch for a fully-dispatched job: chunkIds `0..n-1` with
partial values given by `v`, in chunkId order. -/
def canonMsgs (n : Nat) (v : Nat → JVal) : List (Nat × JVal) :=
  (List.range n).map fun i => (i, v i)

theorem runMessages_cons (ev : String → JVal → JVal → JVal) (jobs : Jobs)
    (m : WsMsg) (rest : List WsMsg) :
    runMessages ev jobs (m :: rest) =
      ((runMessages ev (handleMessage ev jobs m).1 rest).1,
       (handleMessage ev jobs m).2 ++
         (runMessages ev (handleMessage ev jobs m).1 rest).2) := rfl

theorem handleMessage_single (ev : String → JVal → JVal → JVal) (ops : List Op)
    (p : List (Option JVal)) (n c jid i : Nat) (r : JVal) :
    handleMessage ev [(jid, ⟨ops, p, n, c⟩)] (.chunk_result jid i r) =
      if c + 1 = n then
        ([], [.resolved jid (mergeResults ev (arraySet p i (some r)) ops)])
      else
        ([(jid, ⟨ops, arraySet p i (some r), n, c + 1⟩)], []) := by
  by_cases h : c + 1 = n <;>
    simp [handleMessage, mapGet_cons, mapSet, mapDelete, List.filter_cons, h,
      mapGet]

theorem run_cr_progress (ev : String → JVal → JVal → JVal) (ops : List Op)
    (jid n : Nat) :
    ∀ (ms : List (Nat × JVal)) (p : List (Option JVal)) (c : Nat),
      c + ms.length < n →
      runMessages ev [(jid, ⟨ops, p, n, c⟩)] (crMsgs jid ms) =
        ([(jid, ⟨ops, writeAll p ms, n, c + ms.length⟩)], []) := by
  intro ms
  induction ms with
  | nil =>
    intro p c h
    simp [crMsgs, runMessages, writeAll]
  | cons m t ih =>
    intro p c h
    have hlen : c + (t.length + 1) < n := by simpa using h
    have hne : ¬(c + 1 = n) := by omega
    have hrec := ih (arraySet p m.1 (some m.2)) (c + 1) (by omega)
    have harith : c + (m :: t).length = c + 1 + t.length := by
      simp only [List.length_cons]; omega
    rw [harith]
    show runMessages ev [(jid, ⟨ops, p, n, c⟩)]
        (WsMsg.chunk_result jid m.1 m.2 :: crMsgs jid t) = _
    rw [runMessages_cons, handleMessage_single, if_neg hne, hrec]
    simp [writeAll]

theorem run_cr_complete (ev : String → JVal → JVal → JVal) (ops : List Op)
    (jid n : Nat) :
    ∀ (ms : List (Nat × JVal)) (p : List (Option JVal)) (c : Nat),
      ms ≠ [] → c + ms.length = n →
      runMessages ev [(jid, ⟨ops, p, n, c⟩)] (crMsgs jid ms) =
        ([], [.resolved jid (mergeResults ev (writeAll p ms) ops)]) := by
  intro ms
  induction ms with
  | nil => intro p c h _; exact absurd rfl h
  | cons m t ih =>
    intro p c _ hlen
    cases t with
    | nil =>
      have hc : c + 1 = n := by simpa using hlen
      show runMessages ev [(jid, ⟨ops, p, n, c⟩)]
          (WsMsg.chunk_result jid m.1 m.2 :: crMsgs jid []) = _
      rw [runMessages_cons, handleMessage_single, if_pos hc]
      simp [crMsgs, runMessages, writeAll]
    | cons m' t' =>
      have hlen' : c + (t'.length + 1 + 1) = n := by simpa using hlen
      have hne : ¬(c + 1 = n) := by omega
      have hrec := ih (arraySet p m.1 (some m.2)) (c + 1) (by simp)
        (by simp; omega)
      show runMessages ev [(jid, ⟨ops, p, n, c⟩)]
          (WsMsg.chunk_result jid m.1 m.2 :: crMsgs jid (m' :: t')) = _
      rw [runMessages_cons, handleMessage_single, if_neg hne, hrec]
      simp [writeAll]

theorem writeAll_length (ms : List (Nat × JVal)) :
    ∀ p : List (Option JVal), (∀ j ∈ ms.map Prod.fst, j < p.length) →
      (writeAll p ms).length = p.length := by
  induction ms with
  | nil => intro p _; rfl
  | cons m t ih =>
    intro p hj
    have hm : m.1 < p.length := hj m.1 (by simp)
    have hset : (arraySet p m.1 (some m.2)).length = p.length := by
      simp [arraySet, hm]
    have ht : ∀ j ∈ t.map Prod.fst, j < (arraySet p m.1 (some m.2)).length := by
      intro j hjt
      rw [hset]
      exact hj j (by simp [hjt])
    calc (writeAll p (m :: t)).length
        = (writeAll (arraySet p m.1 (some m.2)) t).length := rfl
      _ = (arraySet p m.1 (some m.2)).length := ih _ ht
      _ = p.length := hset

theorem writeAll_getElem?_not_mem (ms : List (Nat × JVal)) :
    ∀ (p : List (Option JVal)) (i : Nat),
      i ∉ ms.map Prod.fst → (∀ j ∈ ms.map Prod.fst, j < p.length) →
      (writeAll p ms)[i]? = p[i]? := by
  induction ms with
  | nil => intro p i _ _; rfl
  | cons m t ih =>
    intro p i hni hj
    have hm : m.1 < p.length := hj m.1 (by simp)
    have hne : m.1 ≠ i := fun hc =>
      hni (hc ▸ (by simp : m.1 ∈ (m :: t).map Prod.fst))
    have hset : (arraySet p m.1 (some m.2)).length = p.length := by
      simp [arraySet, hm]
    have ht : ∀ j ∈ t.map Prod.fst, j < (arraySet p m.1 (some m.2)).length := by
      intro j hjt; rw [hset]; exact hj j (by simp [hjt])
    have hni' : i ∉ t.map Prod.fst := fun hc => hni (by simp [hc])
    calc (writeAll p (m :: t))[i]?
        = (writeAll (arraySet p m.1 (some m.2)) t)[i]? := rfl
      _ = (arraySet p m.1 (some m.2))[i]? := ih _ i hni' ht
      _ = p[i]? := by simp [arraySet, hm, List.getElem?_set_ne hne]

theorem writeAll_getElem?_mem (ms : List (Nat × JVal)) :
    ∀ (p : List (Option JVal)) (i : Nat) (r : JVal),
      (ms.map Prod.fst).Nodup → (∀ j ∈ ms.map Prod.fst, j < p.length) →
      (i, r) ∈ ms → (writeAll p ms)[i]? = some (some r) := by
  induction ms with
  | nil => intro p i r _ _ hmem; cases hmem
  | cons m t ih =>
    intro p i r hnd hj hmem
    have hm : m.1 < p.length := hj m.1 (by simp)
    have hset : (arraySet p m.1 (some m.2)).length = p.length := by
      simp [arraySet, hm]
    have ht : ∀ j ∈ t.map Prod.fst, j < (arraySet p m.1 (some m.2)).length := by
      intro j hjt; rw [hset]; exact hj j (by simp [hjt])
    rcases List.mem_cons.mp hmem with heq | hmem'
    · subst heq
      have hip : i < p.length := by simpa using hm
      have hnotin : i ∉ t.map Prod.fst :=
        (List.nodup_cons.mp (by simpa using hnd)).1
      calc (writeAll p ((i, r) :: t))[i]?
          = (writeAll (arraySet p i (some r)) t)[i]? := rfl
        _ = (arraySet p i (some r))[i]? :=
            writeAll_getElem?_not_mem t _ i hnotin (by simpa using ht)
        _ = some (some r) := by
            simp [arraySet, hip, List.getElem?_set_self hip]
    · have hnd' : (t.map Prod.fst).Nodup := (List.nodup_cons.mp (by simpa using hnd)).2
      exact ih _ i r hnd' ht hmem'

theorem canonMsgs_map_fst (n : Nat) (v : Nat → JVal) :
    (canonMsgs n v).map Prod.fst = List.range n := by
  rw [canonMsgs, List.map_map]
  exact List.map_id _

theorem writeAll_canon (n : Nat) (v : Nat → JVal) (ms : List (Nat × JVal))
    (h : ms.Perm (canonMsgs n v)) :
    writeAll (List.replicate n none) ms =
      (List.range n).map fun i => some (v i) := by
  have hfst : (ms.map Prod.fst).Perm (List.range n) := by
    have := h.map Prod.fst
    rwa [canonMsgs_map_fst] at this
  have hnd : (ms.map Prod.fst).Nodup := hfst.nodup_iff.mpr (List.nodup_range n)
  have hj : ∀ j ∈ ms.map Prod.fst, j < (List.replicate n (none : Option JVal)).length := by
    intro j hjm
    have : j ∈ List.range n := (hfst.mem_iff).mp hjm
    simpa using List.mem_range.mp this
  have hlen : (writeAll (List.replicate n none) ms).length = n := by
    rw [writeAll_length ms _ hj]; simp
  apply List.ext_getElem?
  intro i
  by_cases hi : i < n
  · have hmem : (i, v i) ∈ ms := by
      refine (h.mem_iff).mpr ?_
      unfold canonMsgs
      exact List.mem_map_of_mem _ (List.mem_range.mpr hi)
    rw [writeAll_getElem?_mem ms _ i (v i) hnd hj hmem]
    rw [List.getElem?_map, List.getElem?_range hi]
    rfl
  · have h1 : (writeAll (List.replicate n none) ms)[i]? = none := by
      apply List.getElem?_eq_none
      omega
    have h2 : ((List.range n).map fun i => some (v i))[i]? = none := by
      apply List.getElem?_eq_none
      simp; omega
    rw [h1, h2]

/-- C6: for any one job, the merged result delivered to the resolver is the
same for any two arrival orders of the same set of `chunk_result` messages
(each carrying a distinct chunkId with its partial value): the final registry
state and the emitted resolver calls coincide — in particular for a reduce
pipeline with a non-commutative reducer the outcome depends only on chunkId
order, never on arrival order. -/
theorem run_arrival_order_independent (ev : String → JVal → JVal → JVal)
    (ops : List Op) (jid n : Nat) (v : Nat → JVal)
    (l₁ l₂ : List (Nat × JVal))
    (h₁ : l₁.Perm (canonMsgs n v)) (h₂ : l₂.Perm (canonMsgs n v)) :
    runMessages ev [(jid, freshJob ops n)] (crMsgs jid l₁) =
      runMessages ev [(jid, freshJob ops n)] (crMsgs jid l₂) := by
  have hcanon : ∀ l : List (Nat × JVal), l.Perm (canonMsgs n v) → (0 < n) →
      runMessages ev [(jid, freshJob ops n)] (crMsgs jid l) =
        ([], [.resolved jid
          (mergeResults ev ((List.range n).map fun i => some (v i)) ops)]) := by
    intro l hl hn
    have hlen : l.length = n := by
      have := hl.length_eq
      simpa [canonMsgs] using this
    have hne : l ≠ [] := by
      intro hc; rw [hc] at hlen; simp at hlen; omega
    have := run_cr_complete ev ops jid n l (List.replicate n none) 0 hne
      (by simpa using hlen)
    rw [freshJob, this, writeAll_canon n v l hl]
  rcases Nat.eq_zero_or_pos n with hz | hp
  · subst hz
    have e₁ : l₁ = [] := List.Perm.eq_nil (by simpa [canonMsgs] using h₁)
    have e₂ : l₂ = [] := List.Perm.eq_nil (by simpa [canonMsgs] using h₂)
    rw [e₁, e₂]
  · rw [hcanon l₁ h₁ hp, hcanon l₂ h₂ hp]

/-- A concrete instance of the reducer-evaluation oracle: the meaning of the
serialized body "(a,b)=>a-b" on numeric arguments (the only ones exercised). -/
def jsSub : JVal → JVal → JVal
  | .num a, .num b => .num (a - b)
  | _, _ => .num 0

/-- Witness for C6: spec scenario 2, a non-commutative reduce (subtraction
from 100) with partials 10, 20, 5 for chunkIds 0, 1, 2.  Arrival order
`0,1,2` and arrival order `2,0,1` produce identical resolver output, namely
`100 - 10 - 20 - 5 = 65`. -/
theorem run_arrival_order_independent_witness :
    ([((0 : Nat), JVal.num 10), (1, JVal.num 20), (2, JVal.num 5)].Perm
        (canonMsgs 3 fun i => JVal.num (if i = 0 then 10 else if i = 1 then 20 else 5)))
    ∧ ([((2 : Nat), JVal.num 5), (0, JVal.num 10), (1, JVal.num 20)].Perm
        (canonMsgs 3 fun i => JVal.num (if i = 0 then 10 else if i = 1 then 20 else 5)))
    ∧ runMessages (fun _ a b => jsSub a b)
        [(1, freshJob [Op.reduce "(a,b)=>a-b" (JVal.num 100)] 3)]
        (crMsgs 1 [(0, JVal.num 10), (1, JVal.num 20), (2, JVal.num 5)])
      = runMessages (fun _ a b => jsSub a b)
        [(1, freshJob [Op.reduce "(a,b)=>a-b" (JVal.num 100)] 3)]
        (crMsgs 1 [(2, JVal.num 5), (0, JVal.num 10), (1, JVal.num 20)])
    ∧ (runMessages (fun _ a b => jsSub a b)
        [(1, freshJob [Op.reduce "(a,b)=>a-b" (JVal.num 100)] 3)]
        (crMsgs 1 [(2, JVal.num 5), (0, JVal.num 10), (1, JVal.num 20)])).2
      = [.resolved 1 (JVal.num 65)] :=
  ⟨by decide, by decide,
   run_arrival_order_independent (fun _ a b => jsSub a b)
     [Op.reduce "(a,b)=>a-b" (JVal.num 100)] 1 3
     (fun i => JVal.num (if i = 0 then 10 else if i = 1 then 20 else 5))
     _ _ (by decide) (by decide),
   by decide⟩

/-- The chunkId carried by a `chunk_result` frame, if any (used to state
which chunkIds ever contributed to a job). -/
def chunkResultId : WsMsg → Option Nat
  | .chunk_result _ cid _ => some cid
  | _ => none

/-- C2 is false on the code: the `chunk_result` handler does not deduplicate
chunkIds — it counts every message toward completion.  Concretely, a job with
`expectedChunks = 2` resolves successfully after two duplicate messages for
chunkId 0: the resolver is invoked although chunkId 1 (in range `0..expected-1`)
never contributed, slot 0 was written twice, and slot 1 was still a hole at
merge time (the merged concatenation has only one element). -/
theorem chunk_result_no_dedup_counterexample :
    ((runMessages (fun _ _ b => b) [(1, ⟨[], [none, none], 2, 0⟩)]
        [.chunk_result 1 0 (.num 5), .chunk_result 1 0 (.num 7)]).2
      = [.resolved 1 (.arr [.num 7])])
    ∧ (1 : Nat) ∉ ([.chunk_result 1 0 (.num 5), .chunk_result 1 0 (.num 7)] :
        List WsMsg).filterMap chunkResultId
    ∧ (1 : Nat) < 2 := by
  refine ⟨by decide, by decide, by decide⟩

/-- C2 amended: provided every ingested `chunk_result` for a job carries a
distinct chunkId within the dispatched range `0..expected-1` (which the
dispatcher guarantees, since it assigns each task a unique chunkId), a job
that resolves successfully has ingested exactly `expected` contributions and
every chunkId in `0..expected-1` contributed exactly once. -/
theorem resolved_implies_each_chunk_once (ev : String → JVal → JVal → JVal)
    (ops : List Op) (jid n : Nat) (ms : List (Nat × JVal))
    (hnd : (ms.map Prod.fst).Nodup)
    (hlt : ∀ i ∈ ms.map Prod.fst, i < n)
    (hres : ∃ rv, JobEvent.resolved jid rv ∈
      (runMessages ev [(jid, freshJob ops n)] (crMsgs jid ms)).2) :
    ms.length = n ∧ (ms.map Prod.fst).Perm (List.range n) := by
  have hsub : (ms.map Prod.fst) ⊆ List.range n := by
    intro i hi; exact List.mem_range.mpr (hlt i hi)
  have hsp : (ms.map Prod.fst).Subperm (List.range n) :=
    List.subperm_of_subset hnd hsub
  have hle : ms.length ≤ n := by
    have := hsp.length_le
    simpa using this
  by_cases hlen : ms.length = n
  · refine ⟨hlen, ?_⟩
    obtain ⟨l, hperm, hsl⟩ := hsp
    have hl : l = List.range n := by
      apply hsl.eq_of_length
      rw [hperm.length_eq]
      simp [hlen]
    exact hl ▸ hperm.symm
  · exfalso
    have hlt' : 0 + ms.length < n := by omega
    have := run_cr_progress ev ops jid n ms (List.replicate n none) 0 hlt'
    rw [freshJob, this] at hres
    obtain ⟨rv, hrv⟩ := hres
    simp at hrv

/-- Witness for C2 (amended): a two-task job whose two contributions carry the
distinct in-range chunkIds 0 and 1 resolves with full coverage. -/
theorem resolved_implies_each_chunk_once_witness :
    (([((0 : Nat), JVal.num 3), (1, JVal.num 4)].map Prod.fst).Nodup)
    ∧ (∀ i ∈ [((0 : Nat), JVal.num 3), (1, JVal.num 4)].map Prod.fst, i < 2)
    ∧ ([((0 : Nat), JVal.num 3), (1, JVal.num 4)].length = 2
        ∧ ([((0 : Nat), JVal.num 3), (1, JVal.num 4)].map Prod.fst).Perm
            (List.range 2)) :=
  ⟨by decide, by decide,
   resolved_implies_each_chunk_once (fun _ _ b => b) [] 1 2
     [(0, JVal.num 3), (1, JVal.num 4)] (by decide) (by decide)
     ⟨.arr [.num 3, .num 4], by decide⟩⟩

/-- C5: once a job reaches a terminal state — a `chunk_result` that makes
`completedChunks` reach `expectedChunks` (success), or a `chunk_error` for a
registered job (failure) — its entry is deleted from the registry; afterwards
any `chunk_result` or `chunk_error` carrying that jobId hits the missing-job
path, which returns the registry completely unchanged and calls no resolver. -/
theorem terminal_job_removed_then_dropped (ev : String → JVal → JVal → JVal)
    (jobs : Jobs) (jid : Nat) :
    (∀ job cid r, mapGet jobs jid = some job →
        job.completedChunks + 1 = job.expectedChunks →
        mapGet (handleMessage ev jobs (.chunk_result jid cid r)).1 jid = none)
    ∧ (∀ job e, mapGet jobs jid = some job →
        mapGet (handleMessage ev jobs (.chunk_error jid e)).1 jid = none)
    ∧ (mapGet jobs jid = none →
        (∀ cid r, handleMessage ev jobs (.chunk_result jid cid r) = (jobs, []))
          ∧ (∀ e, handleMessage ev jobs (.chunk_error jid e) = (jobs, []))) := by
  refine ⟨fun job cid r hget hterm => ?_, fun job e hget => ?_, fun hnone => ?_⟩
  · simp only [handleMessage, hget]
    have : job.completedChunks + 1 = job.expectedChunks := hterm
    simp [this, mapGet_mapDelete_self]
  · simp [handleMessage, hget, mapGet_mapDelete_self]
  · exact ⟨fun cid r => by simp [handleMessage, hnone],
      fun e => by simp [handleMessage, hnone]⟩

/-- Witness for C5: a one-task job resolves on its only chunk and is gone;
on the empty registry both late-message kinds are complete no-ops. -/
theorem terminal_job_removed_then_dropped_witness :
    (mapGet [((1 : Nat), (⟨[], [none], 1, 0⟩ : JobState))] 1 = some ⟨[], [none], 1, 0⟩)
    ∧ mapGet (handleMessage (fun _ _ b => b)
        [((1 : Nat), (⟨[], [none], 1, 0⟩ : JobState))]
        (.chunk_result 1 0 (.num 9))).1 1 = none
    ∧ (mapGet ([] : Jobs) 1 = none)
    ∧ handleMessage (fun _ _ b => b) ([] : Jobs) (.chunk_result 1 0 (.num 9)) = ([], [])
    ∧ handleMessage (fun _ _ b => b) ([] : Jobs) (.chunk_error 1 "boom") = ([], []) :=
  ⟨by decide,
   (terminal_job_removed_then_dropped (fun _ _ b => b)
       [((1 : Nat), (⟨[], [none], 1, 0⟩ : JobState))] 1).1
     ⟨[], [none], 1, 0⟩ 0 (.num 9) (by decide) (by decide),
   by decide,
   ((terminal_job_removed_then_dropped (fun _ _ b => b) ([] : Jobs) 1).2.2
       (by decide)).1 0 (.num 9),
   ((terminal_job_removed_then_dropped (fun _ _ b => b) ([] : Jobs) 1).2.2
       (by decide)).2 "boom"⟩

/-! ## Dataset metadata and the job dispatch endpoint (index.ts:65-78, 378-462) -/

/-- Per-shard metadata (index.ts:65-70). -/
structure ShardMeta where
  shardId : Nat
  rowStart : Int
  rowEnd : Int
  chunks : Nat
deriving DecidableEq

/-- Per-dataset metadata (index.ts:72-76); `shards` is a JS `Map` keyed by
shard number, embedded as its entry list in insertion order. -/
structure DatasetMeta where
  name : String
  timestamp : Int
  shards : List (Nat × ShardMeta)
deriving DecidableEq

/-- The in-memory dataset catalog `datasets : Map<string, DatasetMeta>`. -/
abbrev Catalog := List (String × DatasetMeta)

/-- The JSON body of a POST /api/jobs request: `apiKey` is a string field that
may be absent, `predicate?.rowGreaterThan` collapses to an optional bound. -/
structure JobRequest where
  apiKey : Option String
  datasetId : String
  ops : List Op
  rowGreaterThan : Option Int

/-- JS falsiness of the `apiKey` field (index.ts:382 `!apiKey`): an absent
field and an empty string are both falsy. -/
def apiKeyFalsy : Option String → Bool
  | none => true
  | some s => s = ""

/-- One entry of the `tasks` array built by the dispatch loop
(index.ts:408-421). -/
structure ChunkTask where
  shardId : Nat
  chunkId : Nat
  path : String
deriving DecidableEq

/-- `path.join(DATA_ROOT, datasetId, "shard_" + shardId, "chunk_" + i + ".csv")`. -/
def taskPath (dataRoot datasetId : String) (shardId chunkId : Nat) : String :=
  dataRoot ++ "/" ++ datasetId ++ "/shard_" ++ toString shardId ++
    "/chunk_" ++ toString chunkId ++ ".csv"

/-- A typed field of an outbound JSON frame. -/
inductive FrameField where
  | str (v : String)
  | nat (v : Nat)
  | opsF (v : List Op)
deriving DecidableEq

/-- The object serialized by `JSON.stringify` at index.ts:440-447, as its
key/value list: `{type:"execute_chunk", jobId, chunkId, data, ops}`. -/
def execChunkFrame (jobId chunkId : Nat) (data : String) (ops : List Op) :
    List (String × FrameField) :=
  [("type", .str "execute_chunk"), ("jobId", .nat jobId),
   ("chunkId", .nat chunkId), ("data", .str data), ("ops", .opsF ops)]

/-- One `worker.send(...)` performed by the dispatch loop: the snapshot
position of the receiving worker (`index % workerArray.length`) and the frame. -/
structure SentFrame where
  workerIdx : Nat
  frame : List (String × FrameField)
deriving DecidableEq

/-- The shard list the dispatch iterates (index.ts:395-401):
`Array.from(dataset.shards.values())`, filtered by
`s.rowEnd > predicate.rowGreaterThan` when the predicate field is present. -/
def shardsToProcess (dataset : DatasetMeta) (rowGreaterThan : Option Int) :
    List ShardMeta :=
  match rowGreaterThan with
  | some bound => (dataset.shards.map Prod.snd).filter fun s => bound < s.rowEnd
  | none => dataset.shards.map Prod.snd

/-- The `tasks` array built by the `forEach`/`for` push loop
(index.ts:406-421), as a left fold mirroring the pushes. -/
def buildTasks (dataRoot datasetId : String) (shards : List ShardMeta) :
    List ChunkTask :=
  shards.foldl
    (fun acc s =>
      acc ++ (List.range s.chunks).map fun i =>
        ChunkTask.mk s.shardId i (taskPath dataRoot datasetId s.shardId i))
    []

/-- The send loop (index.ts:435-451): for each task index in order, read the
chunk file and send `{type:"execute_chunk", jobId, chunkId: index, data, ops}`
to `workerArray[index % workerArray.length]`. -/
def sendLoop (readFile : String → String) (jobId : Nat) (ops : List Op)
    (workerCount : Nat) : List ChunkTask → Nat → List SentFrame
  | [], _ => []
  | t :: rest, index =>
    ⟨index % workerCount, execChunkFrame jobId index (readFile t.path) ops⟩ ::
      sendLoop readFile jobId ops workerCount rest (index + 1)

/-- The observable outcome of POST /api/jobs before any worker replies:
either an early error response `res.status(status).json({error})`, or a
dispatched job (the entry installed in `jobs` plus the frames sent).  The
success response itself awaits the job's resolver and is settled by the
message handler (`runMessages`). -/
inductive JobsPostOutcome where
  | errorResponse (status : Nat) (error : String)
  | dispatched (jobId : Nat) (job : JobState) (frames : List SentFrame)
deriving DecidableEq

/-- POST /api/jobs (index.ts:378-456): reject falsy `apiKey` with 401, an
unknown dataset with 404, an empty worker set with 503; otherwise prune
shards, build one task per (shard, chunk) pair, register the job with
`partials = new Array(tasks.length)` and `expectedChunks = tasks.length`,
and send one frame per task round-robin over the worker snapshot. -/
def jobsPost (dataRoot : String) (readFile : String → String)
    (datasets : Catalog) (workerCount : Nat) (jobIdCounter : Nat)
    (req : JobRequest) : JobsPostOutcome :=
  if apiKeyFalsy req.apiKey then .errorResponse 401 "Missing apiKey"
  else
    match mapGet datasets req.datasetId with
    | none => .errorResponse 404 "Dataset not found"
    | some dataset =>
      if workerCount = 0 then .errorResponse 503 "No workers available"
      else
        let jobId := jobIdCounter + 1
        let tasks := buildTasks dataRoot req.datasetId
          (shardsToProcess dataset req.rowGreaterThan)
        .dispatched jobId
          ⟨req.ops, List.replicate tasks.length none, tasks.length, 0⟩
          (sendLoop readFile jobId req.ops workerCount tasks 0)

theorem mapGet_mapSet_self [DecidableEq κ] (m : List (κ × α)) (k : κ) (v : α) :
    mapGet (mapSet m k v) k = some v := by
  unfold mapSet
  by_cases hs : (mapGet m k).isSome
  · simp only [hs, if_true]
    have hrep : ∀ t : List (κ × α), (mapGet t k).isSome →
        mapGet (t.map fun p => if p.1 == k then (k, v) else p) k = some v := by
      intro t
      induction t with
      | nil => intro hc; simp [mapGet] at hc
      | cons p t ih =>
        intro hc
        by_cases hp : p.1 = k
        · simp [List.map_cons, hp, mapGet_cons]
        · have hc' : (mapGet t k).isSome := by
            simpa [mapGet_cons, hp] using hc
          have ih' := ih hc'
          simp only [beq_iff_eq] at ih'
          simp [List.map_cons, hp, mapGet_cons, ih']
    exact hrep m hs
  · simp only [hs, if_false]
    have happ : ∀ t : List (κ × α), ¬(mapGet t k).isSome →
        mapGet (t ++ [(k, v)]) k = some v := by
      intro t
      induction t with
      | nil => intro _; simp [mapGet_cons]
      | cons p t ih =>
        intro hc
        have hp : ¬p.1 = k := by
          intro he; exact hc (by simp [mapGet_cons, he])
        have hc' : ¬(mapGet t k).isSome := by
          intro he; exact hc (by simpa [mapGet_cons, hp] using he)
        simp [List.cons_append, mapGet_cons, hp, ih hc']
    exact happ m hs

/-- The registered job carried by a dispatch outcome, if any (the only place
`jobs.set` happens in the endpoint). -/
def registeredJob : JobsPostOutcome → Option JobState
  | .dispatched _ job _ => some job
  | _ => none

/-- The frames sent by a dispatch outcome (error responses send nothing). -/
def framesOf : JobsPostOutcome → List SentFrame
  | .dispatched _ _ frames => frames
  | _ => []

/-- C4 is false on the code as stated: the 401 check is JS falsiness
(`!apiKey`), not absence.  A request whose `apiKey` field is present but
empty (`""`) with an unknown datasetId is answered 401, not the 404 the
claim's precedence ("otherwise ... 404 when the datasetId is not in the
catalog") requires. -/
theorem jobs_post_falsy_key_counterexample :
    ¬ (∀ req : JobRequest, req.apiKey ≠ none →
        mapGet ([] : Catalog) req.datasetId = none →
        ∃ e, jobsPost "datasets" (fun _ => "") ([] : Catalog) 1 0 req =
          .errorResponse 404 e) := by
  intro h
  obtain ⟨e, he⟩ := h ⟨some "", "d", [], none⟩ (by simp) rfl
  simp [jobsPost, apiKeyFalsy] at he

/-- C4 amended: a POST /api/jobs fails 401 "Missing apiKey" when the apiKey
field is absent or falsy (e.g. the empty string); otherwise 404 "Dataset not
found" when the datasetId is not in the catalog; otherwise 503 "No workers
available" when zero workers are connected — in that precedence order, each
failure body being a single error string, and no job entry is registered on
any of these failures. -/
theorem jobs_post_error_precedence (dataRoot : String)
    (readFile : String → String) (datasets : Catalog)
    (workerCount jobIdCounter : Nat) (req : JobRequest) :
    (apiKeyFalsy req.apiKey = true →
      jobsPost dataRoot readFile datasets workerCount jobIdCounter req =
        .errorResponse 401 "Missing apiKey")
    ∧ (apiKeyFalsy req.apiKey = false →
        mapGet datasets req.datasetId = none →
        jobsPost dataRoot readFile datasets workerCount jobIdCounter req =
          .errorResponse 404 "Dataset not found")
    ∧ (apiKeyFalsy req.apiKey = false →
        ∀ ds, mapGet datasets req.datasetId = some ds → workerCount = 0 →
        jobsPost dataRoot readFile datasets workerCount jobIdCounter req =
          .errorResponse 503 "No workers available")
    ∧ ((apiKeyFalsy req.apiKey = true ∨ mapGet datasets req.datasetId = none
          ∨ workerCount = 0) →
        registeredJob
          (jobsPost dataRoot readFile datasets workerCount jobIdCounter req)
          = none) := by
  refine ⟨fun hk => ?_, fun hk hd => ?_, fun hk ds hd hw => ?_, fun hcase => ?_⟩
  · simp [jobsPost, hk]
  · simp [jobsPost, hk, hd]
  · simp [jobsPost, hk, hd, hw]
  · rcases hcase with hk | hd | hw
    · simp [jobsPost, hk, registeredJob]
    · rcases hk : apiKeyFalsy req.apiKey with _ | _
      · simp [jobsPost, hk, hd, registeredJob]
      · simp [jobsPost, hk, registeredJob]
    · rcases hk : apiKeyFalsy req.apiKey with _ | _
      · rcases hd : mapGet datasets req.datasetId with _ | ds
        · simp [jobsPost, hk, hd, registeredJob]
        · simp [jobsPost, hk, hd, hw, registeredJob]
      · simp [jobsPost, hk, registeredJob]

/-- Witness for C4 (amended): the three failure inputs — absent key, present
key with unknown dataset, known dataset with zero workers — produce 401, 404
and 503 respectively, with no registered job. -/
theorem jobs_post_error_precedence_witness :
    (apiKeyFalsy none = true
      ∧ jobsPost "datasets" (fun _ => "") ([] : Catalog) 1 0
          ⟨none, "d", [], none⟩ = .errorResponse 401 "Missing apiKey")
    ∧ (apiKeyFalsy (some "k") = false
      ∧ jobsPost "datasets" (fun _ => "") ([] : Catalog) 1 0
          ⟨some "k", "d", [], none⟩ = .errorResponse 404 "Dataset not found")
    ∧ (jobsPost "datasets" (fun _ => "")
          [("d", ⟨"ds", 0, [(0, ⟨0, 0, 10, 1⟩)]⟩)] 0 0
          ⟨some "k", "d", [], none⟩ = .errorResponse 503 "No workers available")
    ∧ registeredJob (jobsPost "datasets" (fun _ => "") ([] : Catalog) 1 0
          ⟨none, "d", [], none⟩) = none :=
  ⟨⟨rfl, (jobs_post_error_precedence "datasets" (fun _ => "") ([] : Catalog)
      1 0 ⟨none, "d", [], none⟩).1 rfl⟩,
   ⟨rfl, (jobs_post_error_precedence "datasets" (fun _ => "") ([] : Catalog)
      1 0 ⟨some "k", "d", [], none⟩).2.1 rfl rfl⟩,
   (jobs_post_error_precedence "datasets" (fun _ => "")
      [("d", ⟨"ds", 0, [(0, ⟨0, 0, 10, 1⟩)]⟩)] 0 0
      ⟨some "k", "d", [], none⟩).2.2.1 rfl ⟨"ds", 0, [(0, ⟨0, 0, 10, 1⟩)]⟩
      (by decide) rfl,
   (jobs_post_error_precedence "datasets" (fun _ => "") ([] : Catalog)
      1 0 ⟨none, "d", [], none⟩).2.2.2 (Or.inl rfl)⟩

theorem buildTasks_eq (dataRoot datasetId : String) (shards : List ShardMeta) :
    buildTasks dataRoot datasetId shards =
      shards.flatMap fun s =>
        (List.range s.chunks).map fun i =>
          ChunkTask.mk s.shardId i (taskPath dataRoot datasetId s.shardId i) := by
  have hgen : ∀ (l : List ShardMeta) (acc : List ChunkTask),
      l.foldl
        (fun acc s =>
          acc ++ (List.range s.chunks).map fun i =>
            ChunkTask.mk s.shardId i (taskPath dataRoot datasetId s.shardId i))
        acc
      = acc ++ l.flatMap fun s =>
          (List.range s.chunks).map fun i =>
            ChunkTask.mk s.shardId i (taskPath dataRoot datasetId s.shardId i) := by
    intro l
    induction l with
    | nil => intro acc; simp
    | cons s rest ih => intro acc; simp [ih, List.append_assoc]
  simpa [buildTasks] using hgen shards []

theorem sendLoop_eq (readFile : String → String) (jobId : Nat) (ops : List Op)
    (workerCount : Nat) :
    ∀ (ts : List ChunkTask) (k : Nat),
      sendLoop readFile jobId ops workerCount ts k =
        (ts.enumFrom k).map fun p =>
          ⟨p.1 % workerCount, execChunkFrame jobId p.1 (readFile p.2.path) ops⟩ := by
  intro ts
  induction ts with
  | nil => intro k; rfl
  | cons t rest ih => intro k; simp [sendLoop, List.enumFrom, ih (k + 1)]

/-- Formalization of the amended C3 task list: exactly one task per
(shard, chunk-index) pair — pruned shards in catalog (insertion) order, chunk
indices `0..chunks-1` within each shard — with the CSV path each task reads. -/
def tasksSpec (dataRoot : String) (req : JobRequest) (ds : DatasetMeta) :
    List ChunkTask :=
  (shardsToProcess ds req.rowGreaterThan).flatMap fun s =>
    (List.range s.chunks).map fun i =>
      ChunkTask.mk s.shardId i (taskPath dataRoot req.datasetId s.shardId i)

/-- C3 is false on the code as stated: the dispatched task messages are
`{type:"execute_chunk", jobId, chunkId, data, ops}` — they carry the chunk
file's contents inline and have no `rowGroupId` or `publicUrl` field, and
tasks are built per (shard, chunk) pair of the CSV shard catalog, not per
row-group.  Concretely, for a catalog with one single-chunk shard and one
worker, the (unique) sent frame lacks both claimed keys. -/
theorem task_frame_shape_counterexample :
    ¬ (∀ f ∈ framesOf (jobsPost "datasets" (fun _ => "a,b")
          [("d", ⟨"ds", 0, [(0, ⟨0, 0, 10, 1⟩)]⟩)] 1 0
          ⟨some "k", "d", [], none⟩),
        "rowGroupId" ∈ f.frame.map Prod.fst
          ∧ "publicUrl" ∈ f.frame.map Prod.fst) := by
  decide

/-- C3 amended: for a submission that passes the apiKey, dataset and worker
checks, the coordinator builds exactly one task per (shard, chunk-index) pair
— shards in catalog order after the optional `rowGreaterThan` pruning —
sets the job's expected count to the number of tasks (with a fresh hole
array of that size and zero completions), and sends the task at position `i`
to the snapshot worker at position `i % workerCount` as the frame
`{type:"execute_chunk", jobId, chunkId: i, data: file contents, ops}`. -/
theorem jobs_post_dispatch (dataRoot : String) (readFile : String → String)
    (datasets : Catalog) (workerCount jobIdCounter : Nat) (req : JobRequest)
    (ds : DatasetMeta)
    (hk : apiKeyFalsy req.apiKey = false)
    (hd : mapGet datasets req.datasetId = some ds)
    (hw : workerCount ≠ 0) :
    jobsPost dataRoot readFile datasets workerCount jobIdCounter req =
      .dispatched (jobIdCounter + 1)
        ⟨req.ops, List.replicate (tasksSpec dataRoot req ds).length none,
          (tasksSpec dataRoot req ds).length, 0⟩
        ((tasksSpec dataRoot req ds).enum.map fun p =>
          ⟨p.1 % workerCount,
           execChunkFrame (jobIdCounter + 1) p.1 (readFile p.2.path) req.ops⟩) := by
  have htasks : buildTasks dataRoot req.datasetId
      (shardsToProcess ds req.rowGreaterThan) = tasksSpec dataRoot req ds := by
    rw [buildTasks_eq, tasksSpec]
  simp only [jobsPost, hk, Bool.false_eq_true, if_false, hd, hw, if_neg hw,
    htasks, sendLoop_eq]
  rfl

/-- Witness for C3 (amended): a two-shard catalog (2 chunks then 1 chunk),
two workers.  Dispatch yields three tasks with global chunkIds 0,1,2 sent to
workers 0,1,0, expected count 3. -/
theorem jobs_post_dispatch_witness :
    (apiKeyFalsy (some "k") = false)
    ∧ mapGet [("d", (⟨"ds", 0, [(0, ⟨0, 0, 10, 2⟩), (1, ⟨1, 10, 20, 1⟩)]⟩ : DatasetMeta))] "d"
        = some ⟨"ds", 0, [(0, ⟨0, 0, 10, 2⟩), (1, ⟨1, 10, 20, 1⟩)]⟩
    ∧ jobsPost "datasets" (fun p => p)
        [("d", ⟨"ds", 0, [(0, ⟨0, 0, 10, 2⟩), (1, ⟨1, 10, 20, 1⟩)]⟩)] 2 0
        ⟨some "k", "d", [], none⟩
      = .dispatched 1
          ⟨[], List.replicate
            (tasksSpec "datasets" ⟨some "k", "d", [], none⟩
              ⟨"ds", 0, [(0, ⟨0, 0, 10, 2⟩), (1, ⟨1, 10, 20, 1⟩)]⟩).length none,
            (tasksSpec "datasets" ⟨some "k", "d", [], none⟩
              ⟨"ds", 0, [(0, ⟨0, 0, 10, 2⟩), (1, ⟨1, 10, 20, 1⟩)]⟩).length, 0⟩
          ((tasksSpec "datasets" ⟨some "k", "d", [], none⟩
              ⟨"ds", 0, [(0, ⟨0, 0, 10, 2⟩), (1, ⟨1, 10, 20, 1⟩)]⟩).enum.map
            fun p => ⟨p.1 % 2, execChunkFrame 1 p.1 p.2.path []⟩) :=
  ⟨rfl, by decide,
   jobs_post_dispatch "datasets" (fun p => p)
     [("d", ⟨"ds", 0, [(0, ⟨0, 0, 10, 2⟩), (1, ⟨1, 10, 20, 1⟩)]⟩)] 2 0
     ⟨some "k", "d", [], none⟩
     ⟨"ds", 0, [(0, ⟨0, 0, 10, 2⟩), (1, ⟨1, 10, 20, 1⟩)]⟩
     rfl (by decide) (by decide)⟩

/-- Whether a frame is a `chunk_error` for the given job. -/
def isChunkErrorFor (jid : Nat) : WsMsg → Bool
  | .chunk_error j _ => j == jid
  | _ => false

/-- Whether a resolver call belongs to the given job. -/
def eventForJob (jid : Nat) : JobEvent → Bool
  | .resolved j _ => j == jid
  | .rejected j _ => j == jid

theorem handleMessage_zero_expected (ev : String → JVal → JVal → JVal)
    (jobs : Jobs) (jid : Nat) (job : JobState) (m : WsMsg)
    (hget : mapGet jobs jid = some job) (hexp : job.expectedChunks = 0)
    (hm : isChunkErrorFor jid m = false) :
    (∃ job2, mapGet (handleMessage ev jobs m).1 jid = some job2
        ∧ job2.expectedChunks = 0)
    ∧ ∀ e ∈ (handleMessage ev jobs m).2, eventForJob jid e = false := by
  cases m with
  | chunk_result j cid r =>
    by_cases hj : j = jid
    · subst hj
      rw [show handleMessage ev jobs (.chunk_result j cid r) =
          (match mapGet jobs j with
           | none => (jobs, [])
           | some job =>
             let job' : JobState :=
               { job with
                 partials := arraySet job.partials cid (some r)
                 completedChunks := job.completedChunks + 1 }
             if job'.completedChunks = job'.expectedChunks then
               (mapDelete jobs j,
                [.resolved j (mergeResults ev job'.partials job'.ops)])
             else (mapSet jobs j job', [])) from rfl]
      rw [hget]
      have hne : ¬(job.completedChunks + 1 = job.expectedChunks) := by
        rw [hexp]; omega
      simp only [hne, if_false]
      exact ⟨⟨_, mapGet_mapSet_self jobs j _, hexp⟩, by simp⟩
    · rcases hmg : mapGet jobs j with _ | job2
      · simp only [handleMessage, hmg]
        exact ⟨⟨job, hget, hexp⟩, by simp⟩
      · simp only [handleMessage, hmg]
        by_cases hc : job2.completedChunks + 1 = job2.expectedChunks
        · simp only [hc, if_true]
          refine ⟨⟨job, ?_, hexp⟩, ?_⟩
          · rw [mapGet_mapDelete_ne jobs j jid hj, hget]
          · intro e he
            simp at he
            subst he
            simp [eventForJob, hj]
        · simp only [hc, if_false]
          refine ⟨⟨job, ?_, hexp⟩, by simp⟩
          rw [mapGet_mapSet_ne jobs j jid _ hj, hget]
  | chunk_error j e =>
    have hj : j ≠ jid := by
      intro hc; rw [hc] at hm; simp [isChunkErrorFor] at hm
    rcases hmg : mapGet jobs j with _ | job2
    · simp only [handleMessage, hmg]
      exact ⟨⟨job, hget, hexp⟩, by simp⟩
    · simp only [handleMessage, hmg]
      refine ⟨⟨job, ?_, hexp⟩, ?_⟩
      · rw [mapGet_mapDelete_ne jobs j jid hj, hget]
      · intro ev he
        simp at he
        subst he
        simp [eventForJob, hj]
  | worker_progress p =>
    exact ⟨⟨job, hget, hexp⟩, by simp [handleMessage]⟩
  | other tag =>
    exact ⟨⟨job, hget, hexp⟩, by simp [handleMessage]⟩

theorem run_zero_expected_no_events (ev : String → JVal → JVal → JVal)
    (jid : Nat) :
    ∀ (msgs : List WsMsg) (jobs : Jobs) (job : JobState),
      mapGet jobs jid = some job → job.expectedChunks = 0 →
      (∀ m ∈ msgs, isChunkErrorFor jid m = false) →
      ∀ e ∈ (runMessages ev jobs msgs).2, eventForJob jid e = false := by
  intro msgs
  induction msgs with
  | nil =>
    intro jobs job _ _ _ e he
    simp [runMessages] at he
  | cons m rest ih =>
    intro jobs job hget hexp hmsgs e he
    have hstep := handleMessage_zero_expected ev jobs jid job m hget hexp
      (hmsgs m (by simp))
    obtain ⟨⟨job2, hget2, hexp2⟩, hev⟩ := hstep
    rw [show runMessages ev jobs (m :: rest) =
        ((runMessages ev (handleMessage ev jobs m).1 rest).1,
         (handleMessage ev jobs m).2 ++
           (runMessages ev (handleMessage ev jobs m).1 rest).2) from rfl] at he
    rcases List.mem_append.mp he with h1 | h2
    · exact hev e h1
    · exact ih (handleMessage ev jobs m).1 job2 hget2 hexp2
        (fun m' hm' => hmsgs m' (by simp [hm'])) e h2

/-- C10: a job submission that passes the apiKey, dataset and worker checks
but prunes away every shard (or has none) is registered with
`expectedChunks = 0`, an empty partials array and no sent frames; and since
completion is only ever tested inside the `chunk_result` handler after an
increment, no sequence of worker messages containing no `chunk_error` for
that jobId can ever produce a resolver call for it — the submitter's HTTP
request is never answered. -/
theorem empty_job_registered_never_resolved (ev : String → JVal → JVal → JVal)
    (dataRoot : String) (readFile : String → String) (datasets : Catalog)
    (workerCount jobIdCounter : Nat) (req : JobRequest) (ds : DatasetMeta)
    (hk : apiKeyFalsy req.apiKey = false)
    (hd : mapGet datasets req.datasetId = some ds)
    (hw : workerCount ≠ 0)
    (hprune : shardsToProcess ds req.rowGreaterThan = []) :
    jobsPost dataRoot readFile datasets workerCount jobIdCounter req =
      .dispatched (jobIdCounter + 1) ⟨req.ops, [], 0, 0⟩ []
    ∧ ∀ (jobs : Jobs) (job : JobState) (msgs : List WsMsg),
        mapGet jobs (jobIdCounter + 1) = some job →
        job.expectedChunks = 0 →
        (∀ m ∈ msgs, isChunkErrorFor (jobIdCounter + 1) m = false) →
        ∀ e ∈ (runMessages ev jobs msgs).2,
          eventForJob (jobIdCounter + 1) e = false := by
  constructor
  · simp [jobsPost, hk, hd, hw, hprune, buildTasks, sendLoop]
  · intro jobs job msgs hget hexp hmsgs
    exact run_zero_expected_no_events ev (jobIdCounter + 1) msgs jobs job
      hget hexp hmsgs

/-- Witness for C10: a single-shard dataset entirely pruned by
`rowGreaterThan = 50` dispatches zero tasks with `expectedChunks = 0`, and a
later message stream (results for it and for another job, an error for the
other job) yields no resolver call for it. -/
theorem empty_job_registered_never_resolved_witness :
    (apiKeyFalsy (some "k") = false)
    ∧ shardsToProcess ⟨"ds", 0, [(0, ⟨0, 0, 10, 2⟩)]⟩ (some 50) = []
    ∧ jobsPost "datasets" (fun _ => "")
        [("d", ⟨"ds", 0, [(0, ⟨0, 0, 10, 2⟩)]⟩)] 1 0
        ⟨some "k", "d", [], some 50⟩ = .dispatched 1 ⟨[], [], 0, 0⟩ []
    ∧ ∀ e ∈ (runMessages (fun _ _ b => b)
          [(1, (⟨[], [], 0, 0⟩ : JobState)), (2, ⟨[], [none], 1, 0⟩)]
          [.chunk_result 1 0 (.num 1), .chunk_result 2 0 (.num 2),
           .chunk_error 2 "boom"]).2,
        eventForJob 1 e = false :=
  ⟨rfl, by decide,
   (empty_job_registered_never_resolved (fun _ _ b => b) "datasets"
      (fun _ => "") [("d", ⟨"ds", 0, [(0, ⟨0, 0, 10, 2⟩)]⟩)] 1 0
      ⟨some "k", "d", [], some 50⟩ ⟨"ds", 0, [(0, ⟨0, 0, 10, 2⟩)]⟩
      rfl (by decide) (by decide) (by decide)).1,
   (empty_job_registered_never_resolved (fun _ _ b => b) "datasets"
      (fun _ => "") [("d", ⟨"ds", 0, [(0, ⟨0, 0, 10, 2⟩)]⟩)] 1 0
      ⟨some "k", "d", [], some 50⟩ ⟨"ds", 0, [(0, ⟨0, 0, 10, 2⟩)]⟩
      rfl (by decide) (by decide) (by decide)).2
     [(1, ⟨[], [], 0, 0⟩), (2, ⟨[], [none], 1, 0⟩)] ⟨[], [], 0, 0⟩
     [.chunk_result 1 0 (.num 1), .chunk_result 2 0 (.num 2),
      .chunk_error 2 "boom"]
     (by decide) (by decide) (by decide)⟩


theorem mapGet_mem [DecidableEq κ] (m : List (κ × α)) (k : κ) (v : α)
    (h : mapGet m k = some v) : (k, v) ∈ m := by
  unfold mapGet at h
  cases hf : m.find? (fun p => p.1 == k) with
  | none => rw [hf] at h; simp at h
  | some p =>
    rw [hf] at h
    have hk : p.1 = k := by simpa using List.find?_some hf
    have hv : p.2 = v := by simpa using h
    have hpkv : p = (k, v) := Prod.ext_iff.mpr ⟨hk, hv⟩
    exact hpkv ▸ List.mem_of_find?_eq_some hf

theorem mapGet_of_mem_nodup [DecidableEq κ] (m : List (κ × α))
    (hnd : (m.map Prod.fst).Nodup) (k : κ) (v : α) (h : (k, v) ∈ m) :
    mapGet m k = some v := by
  induction m with
  | nil => cases h
  | cons p t ih =>
    rcases List.mem_cons.mp h with heq | hmem
    · rw [← heq, mapGet_cons]
      simp
    · have hk : k ∈ t.map Prod.fst := by
        simpa using List.mem_map_of_mem Prod.fst hmem
      have hp : p.1 ≠ k := by
        intro hc
        exact (List.nodup_cons.mp (by simpa using hnd)).1 (hc ▸ hk)
      rw [mapGet_cons]
      simp only [hp, if_false]
      exact ih (List.nodup_cons.mp (by simpa using hnd)).2 hmem

/-! ## Dataset deletion and the age-based reaper (index.ts:110-133, 181-195) -/

/-- JSON bodies the delete endpoint can answer with. -/
inductive HttpBody where
  | okTrue
  | errorMsg (s : String)
deriving DecidableEq

/-- DELETE /api/datasets/:id (index.ts:181-195): 404 for an unknown id;
otherwise the handler awaits `fs.promises.rm(dir, {recursive, force})` —
whose outcome we pass in as `rmOutcome` — and only after a successful
removal deletes the catalog entry and answers 200 `{ok:true}`; a thrown
removal error is caught and answered 500 `{error}` with the entry left in
the catalog. -/
def deleteDatasetEndpoint (datasets : Catalog) (id : String)
    (rmOutcome : Except String Unit) : (Nat × HttpBody) × Catalog :=
  match mapGet datasets id with
  | none => ((404, .errorMsg "Dataset not found"), datasets)
  | some _ =>
    match rmOutcome with
    | .ok _ => ((200, .okTrue), mapDelete datasets id)
    | .error e => ((500, .errorMsg e), datasets)

/-- `2 * 60 * 60 * 1000` ms (index.ts:113). -/
def twoHoursMs : Int := 2 * 60 * 60 * 1000

/-- Whether the reaper removes the entry `p`: it is older than two hours and
the recursive directory removal succeeds (index.ts:117-124). -/
def reapCond (now : Int) (rmOutcome : String → Except String Unit)
    (id : String) (p : String × DatasetMeta) : Prop :=
  p.1 = id ∧ now - p.2.timestamp > twoHoursMs ∧ (rmOutcome p.1).isOk = true

instance (now : Int) (rmOutcome : String → Except String Unit) (id : String)
    (p : String × DatasetMeta) : Decidable (reapCond now rmOutcome id p) := by
  unfold reapCond
  exact inferInstance

/-- `cleanupOldDatasets` (index.ts:110-133): for each catalog entry older
than two hours, remove the directory and then the entry; a removal failure
is only logged, leaving the entry in place.  `rmOutcome` gives the removal
outcome per dataset id. -/
def cleanupOldDatasets (now : Int) (rmOutcome : String → Except String Unit)
    (datasets : Catalog) : Catalog :=
  datasets.foldl
    (fun cat p =>
      if now - p.2.timestamp > twoHoursMs then
        match rmOutcome p.1 with
        | .ok _ => mapDelete cat p.1
        | .error _ => cat
      else cat)
    datasets

theorem mapGet_mapDelete_none [DecidableEq κ] (m : List (κ × α)) (k k' : κ)
    (h : mapGet m k' = none) : mapGet (mapDelete m k) k' = none := by
  by_cases hk : k = k'
  · rw [hk]; exact mapGet_mapDelete_self m k'
  · rw [mapGet_mapDelete_ne m k k' hk]; exact h

theorem cleanup_foldl_lookup (now : Int)
    (rmOutcome : String → Except String Unit) :
    ∀ (l : List (String × DatasetMeta)) (cat : Catalog) (id : String),
      mapGet
        (l.foldl
          (fun cat p =>
            if now - p.2.timestamp > twoHoursMs then
              match rmOutcome p.1 with
              | .ok _ => mapDelete cat p.1
              | .error _ => cat
            else cat)
          cat) id
      = if ∃ p ∈ l, reapCond now rmOutcome id p then none
        else mapGet cat id := by
  intro l
  induction l with
  | nil => intro cat id; simp
  | cons p t ih =>
    intro cat id
    rw [List.foldl_cons, ih]
    simp only [List.exists_mem_cons_iff]
    by_cases hex : ∃ q ∈ t, reapCond now rmOutcome id q
    · rw [if_pos hex, if_pos (Or.inr hex)]
    · rw [if_neg hex]
      by_cases hp : reapCond now rmOutcome id p
      · rw [if_pos (show reapCond now rmOutcome id p
            ∨ ∃ q ∈ t, reapCond now rmOutcome id q from Or.inl hp)]
        obtain ⟨hid, hexp, hok⟩ := hp
        rw [if_pos hexp]
        cases hrm : rmOutcome p.1 with
        | ok u =>
          show mapGet (mapDelete cat p.1) id = none
          rw [hid]
          exact mapGet_mapDelete_self cat id
        | error e =>
          rw [hrm] at hok
          exact Bool.noConfusion hok
      · rw [if_neg (show ¬(reapCond now rmOutcome id p
            ∨ ∃ q ∈ t, reapCond now rmOutcome id q) from
            fun hc => Or.elim hc hp hex)]
        by_cases hexp : now - p.2.timestamp > twoHoursMs
        · rw [if_pos hexp]
          cases hrm : rmOutcome p.1 with
          | ok u =>
            show mapGet (mapDelete cat p.1) id = mapGet cat id
            have hid : p.1 ≠ id := fun hc =>
              hp ⟨hc, hexp, by rw [hrm]; rfl⟩
            exact mapGet_mapDelete_ne cat p.1 id hid
          | error e =>
            rfl
        · rw [if_neg hexp]

/-- C8 is false on the code: the delete handler removes the directory FIRST
and only afterwards the catalog entry, and a removal failure IS propagated —
the endpoint answers 500 `{error}` with the entry still in the catalog,
contradicting the claim that a file-removal failure is only logged and every
present id is answered 200 `{ok:true}` with the entry gone.  Concretely: a
catalog holding "d1" and a removal that throws "EACCES". -/
theorem delete_failure_propagates_counterexample :
    ¬ (∀ rmOutcome : Except String Unit,
        (deleteDatasetEndpoint [("d1", ⟨"ds", 0, []⟩)] "d1" rmOutcome).1
          = (200, HttpBody.okTrue)
        ∧ mapGet (deleteDatasetEndpoint [("d1", ⟨"ds", 0, []⟩)] "d1"
            rmOutcome).2 "d1" = none) := by
  intro h
  exact absurd (h (.error "EACCES")).1 (by decide)

/-- C8 amended: DELETE /api/datasets/:id answers 404 for an unknown id with
the catalog unchanged; for a known id it removes the on-disk directory first
and then the in-memory entry, answering 200 `{ok:true}` with the entry gone
when the removal succeeds, and 500 `{error}` with the entry still present
when the removal throws (the failure is propagated to the caller, not merely
logged); the age-based reaper performs the same directory-then-entry removal
per expired dataset but only logs failures: after a sweep an entry is gone
iff it was expired and its directory removal succeeded. -/
theorem delete_and_reaper_behavior (datasets : Catalog) (id : String)
    (rmOutcome : Except String Unit) (now : Int)
    (rmEach : String → Except String Unit) :
    (mapGet datasets id = none →
      deleteDatasetEndpoint datasets id rmOutcome
        = ((404, .errorMsg "Dataset not found"), datasets))
    ∧ (∀ meta, mapGet datasets id = some meta →
        (∀ u, rmOutcome = .ok u →
          deleteDatasetEndpoint datasets id rmOutcome
            = ((200, .okTrue), mapDelete datasets id)
          ∧ mapGet (deleteDatasetEndpoint datasets id rmOutcome).2 id = none)
        ∧ (∀ e, rmOutcome = .error e →
          deleteDatasetEndpoint datasets id rmOutcome
            = ((500, .errorMsg e), datasets)))
    ∧ ((datasets.map Prod.fst).Nodup →
        ∀ meta, mapGet datasets id = some meta →
        mapGet (cleanupOldDatasets now rmEach datasets) id =
          if now - meta.timestamp > twoHoursMs ∧ (rmEach id).isOk = true
          then none else some meta) := by
  refine ⟨fun hnone => ?_, fun meta hget => ⟨fun u hok => ?_, fun e herr => ?_⟩,
    fun hnd meta hget => ?_⟩
  · simp [deleteDatasetEndpoint, hnone]
  · subst hok
    constructor
    · simp [deleteDatasetEndpoint, hget]
    · simp [deleteDatasetEndpoint, hget, mapGet_mapDelete_self]
  · subst herr
    simp [deleteDatasetEndpoint, hget]
  · rw [cleanupOldDatasets, cleanup_foldl_lookup now rmEach datasets datasets id]
    have hiff : (∃ p ∈ datasets, reapCond now rmEach id p) ↔
        (now - meta.timestamp > twoHoursMs ∧ (rmEach id).isOk = true) := by
      constructor
      · rintro ⟨p, hpmem, hp1, hp2, hp3⟩
        have : mapGet datasets p.1 = some p.2 := by
          have hx := mapGet_of_mem_nodup datasets hnd p.1 p.2 (by simpa using hpmem)
          exact hx
        rw [hp1] at this
        rw [hget] at this
        have hmeta : p.2 = meta := by
          have hx : meta = p.2 := by simpa using this
          exact hx.symm
        rw [← hp1, ← hmeta]
        exact ⟨hp2, hp3⟩
      · rintro ⟨h1, h2⟩
        exact ⟨(id, meta), mapGet_mem datasets id meta hget, rfl, h1, h2⟩
    by_cases hcond : now - meta.timestamp > twoHoursMs ∧ (rmEach id).isOk = true
    · rw [if_pos (hiff.mpr hcond), if_pos hcond]
    · rw [if_neg (fun hc => hcond (hiff.mp hc)), if_neg hcond]
      exact hget

/-- Witness for C8 (amended): 404 on an unknown id; a successful removal
gives 200 with the entry gone; a throwing removal gives 500 with the entry
kept; the reaper removes an expired entry whose directory removal succeeds. -/
theorem delete_and_reaper_behavior_witness :
    (mapGet ([] : Catalog) "nope" = none
      ∧ deleteDatasetEndpoint ([] : Catalog) "nope" (.ok ())
          = ((404, .errorMsg "Dataset not found"), []))
    ∧ (deleteDatasetEndpoint [("d1", ⟨"a", 0, []⟩)] "d1" (.ok ())
        = ((200, .okTrue), mapDelete [("d1", ⟨"a", 0, []⟩)] "d1"))
    ∧ (deleteDatasetEndpoint [("d1", ⟨"a", 0, []⟩)] "d1" (.error "EACCES")
        = ((500, .errorMsg "EACCES"), [("d1", ⟨"a", 0, []⟩)]))
    ∧ mapGet (cleanupOldDatasets (2 * twoHoursMs) (fun _ => .ok ())
          [("d1", ⟨"a", 0, []⟩)]) "d1" =
        (if 2 * twoHoursMs - (0 : Int) > twoHoursMs
            ∧ ((fun _ => (Except.ok () : Except String Unit)) "d1").isOk = true
         then none else some ⟨"a", 0, []⟩) :=
  ⟨⟨rfl, (delete_and_reaper_behavior ([] : Catalog) "nope" (.ok ()) 0
      (fun _ => .ok ())).1 rfl⟩,
   ((delete_and_reaper_behavior [("d1", ⟨"a", 0, []⟩)] "d1" (.ok ()) 0
      (fun _ => .ok ())).2.1 ⟨"a", 0, []⟩ (by decide)).1 () rfl |>.1,
   ((delete_and_reaper_behavior [("d1", ⟨"a", 0, []⟩)] "d1" (.error "EACCES") 0
      (fun _ => .ok ())).2.1 ⟨"a", 0, []⟩ (by decide)).2 "EACCES" rfl,
   (delete_and_reaper_behavior [("d1", ⟨"a", 0, []⟩)] "d1" (.ok ())
      (2 * twoHoursMs) (fun _ => .ok ())).2.2 (by decide) ⟨"a", 0, []⟩
      (by decide)⟩

/-! ## Catalog persistence (index.ts:84-91, 138-160, 166-179) -/

/-- The serializable record written to `{root}/{datasetId}/meta.json` by
`saveMetadata` (index.ts:84-91): the metadata with its shards `Map` spread
into `Array.from(meta.shards.entries())`.  `JSON.stringify`/`JSON.parse`
round-trip this record verbatim, so serialization is represented by the
record itself. -/
structure SerializedMeta where
  name : String
  timestamp : Int
  shards : List (Nat × ShardMeta)
deriving DecidableEq

/-- `saveMetadata` (index.ts:84-91). -/
def saveMetadata (meta : DatasetMeta) : SerializedMeta :=
  ⟨meta.name, meta.timestamp, meta.shards⟩

/-- `new Map(entries)` (index.ts:151): `Map.set` over the entry list in
order — a later duplicate key overwrites an earlier one. -/
def jsMapOfEntries (l : List (Nat × ShardMeta)) : List (Nat × ShardMeta) :=
  l.foldl (fun m p => mapSet m p.1 p.2) []

/-- One dataset as rebuilt from its meta.json (index.ts:148-152). -/
def restoreMeta (raw : SerializedMeta) : DatasetMeta :=
  ⟨raw.name, raw.timestamp, jsMapOfEntries raw.shards⟩

/-- `restoreDatasetsFromDisk` (index.ts:138-160) on a fresh process: fold
`datasets.set(uploadId, restored)` over the parseable meta.json files found
under the data root, starting from the empty catalog. -/
def restoreDatasetsFromDiskFn (entries : List (String × SerializedMeta)) :
    Catalog :=
  entries.foldl (fun cat p => mapSet cat p.1 (restoreMeta p.2)) []

/-- GET /api/datasets (index.ts:166-179) without the disk-size field: id,
name, timestamp and shard count per entry, in catalog order.  Under the
distinct-keys invariant the `Map` API maintains, `meta.shards.size` is the
entry-list length. -/
def listDatasets (datasets : Catalog) : List (String × String × Int × Nat) :=
  datasets.map fun p => (p.1, p.2.name, p.2.timestamp, p.2.shards.length)

theorem mapGet_append_left_none [DecidableEq κ] (a b : List (κ × α)) (k : κ)
    (h : mapGet a k = none) : mapGet (a ++ b) k = mapGet b k := by
  unfold mapGet at h ⊢
  rw [List.find?_append]
  cases hf : a.find? (fun p => p.1 == k) with
  | none => simp
  | some q => rw [hf] at h; simp at h

theorem foldl_mapSet_fresh [DecidableEq κ] :
    ∀ (l acc : List (κ × α)),
      (∀ p ∈ l, mapGet acc p.1 = none) → (l.map Prod.fst).Nodup →
      l.foldl (fun m p => mapSet m p.1 p.2) acc = acc ++ l := by
  intro l
  induction l with
  | nil => intro acc _ _; simp
  | cons p t ih =>
    intro acc hfresh hnd
    rw [List.foldl_cons]
    have hpf : mapGet acc p.1 = none := hfresh p (by simp)
    have hset : mapSet acc p.1 p.2 = acc ++ [p] := by
      unfold mapSet
      rw [hpf]
      simp
    rw [hset]
    have hfresh' : ∀ q ∈ t, mapGet (acc ++ [p]) q.1 = none := by
      intro q hq
      have h1 : mapGet acc q.1 = none := hfresh q (by simp [hq])
      have h2 : p.1 ≠ q.1 := by
        intro hc
        have hqm : q.1 ∈ t.map Prod.fst := by
          simpa using List.mem_map_of_mem Prod.fst hq
        exact (List.nodup_cons.mp (by simpa using hnd)).1 (hc ▸ hqm)
      rw [mapGet_append_left_none acc [p] q.1 h1, mapGet_cons]
      simp [h2, mapGet_nil]
    have hnd' : (t.map Prod.fst).Nodup :=
      (List.nodup_cons.mp (by simpa using hnd)).2
    rw [ih (acc ++ [p]) hfresh' hnd']
    simp

theorem jsMapOfEntries_nodup (l : List (Nat × ShardMeta))
    (hnd : (l.map Prod.fst).Nodup) : jsMapOfEntries l = l := by
  unfold jsMapOfEntries
  have h := foldl_mapSet_fresh l [] (fun p _ => rfl) hnd
  simpa using h

theorem restoreMeta_saveMetadata (meta : DatasetMeta)
    (hnd : (meta.shards.map Prod.fst).Nodup) :
    restoreMeta (saveMetadata meta) = meta := by
  unfold restoreMeta saveMetadata
  rw [jsMapOfEntries_nodup meta.shards hnd]

/-- C9: dataset registration is persistent.  Saving each catalog entry's
metadata to disk and running the restore on a fresh process rebuilds the
catalog exactly — the restore is a left inverse of the metadata save (given
the `Map` invariants: distinct dataset ids, distinct shard ids per dataset)
— so in particular the list() output (id, name, timestamp, shard count) is
identical to the one before the restart. -/
theorem restore_left_inverse_of_save (datasets : Catalog)
    (hnd : (datasets.map Prod.fst).Nodup)
    (hsh : ∀ p ∈ datasets, (p.2.shards.map Prod.fst).Nodup) :
    restoreDatasetsFromDiskFn (datasets.map fun p => (p.1, saveMetadata p.2))
      = datasets
    ∧ listDatasets
        (restoreDatasetsFromDiskFn
          (datasets.map fun p => (p.1, saveMetadata p.2)))
      = listDatasets datasets := by
  have hmain : restoreDatasetsFromDiskFn
      (datasets.map fun p => (p.1, saveMetadata p.2)) = datasets := by
    unfold restoreDatasetsFromDiskFn
    rw [List.foldl_map]
    have hext : ∀ (cat : Catalog), ∀ p ∈ datasets,
        mapSet cat (p.1, saveMetadata p.2).1
          (restoreMeta (p.1, saveMetadata p.2).2)
        = mapSet cat p.1 p.2 := by
      intro cat p hp
      show mapSet cat p.1 (restoreMeta (saveMetadata p.2)) = mapSet cat p.1 p.2
      rw [restoreMeta_saveMetadata p.2 (hsh p hp)]
    rw [List.foldl_ext _ _ [] hext]
    have h := foldl_mapSet_fresh datasets [] (fun p _ => rfl) hnd
    simpa using h
  exact ⟨hmain, by rw [hmain]⟩

/-- Witness for C9: a two-dataset catalog (one two-shard, one one-shard)
survives the save/restore round trip with identical list() output. -/
theorem restore_left_inverse_of_save_witness :
    ((([("d1", (⟨"alpha", 5, [(0, ⟨0, 0, 10, 2⟩), (1, ⟨1, 10, 20, 1⟩)]⟩ : DatasetMeta)),
        ("d2", ⟨"beta", 9, [(0, ⟨0, 0, 7, 3⟩)]⟩)] : Catalog).map Prod.fst).Nodup)
    ∧ restoreDatasetsFromDiskFn
        (([("d1", (⟨"alpha", 5, [(0, ⟨0, 0, 10, 2⟩), (1, ⟨1, 10, 20, 1⟩)]⟩ : DatasetMeta)),
           ("d2", ⟨"beta", 9, [(0, ⟨0, 0, 7, 3⟩)]⟩)] : Catalog).map
          fun p => (p.1, saveMetadata p.2))
      = [("d1", ⟨"alpha", 5, [(0, ⟨0, 0, 10, 2⟩), (1, ⟨1, 10, 20, 1⟩)]⟩),
         ("d2", ⟨"beta", 9, [(0, ⟨0, 0, 7, 3⟩)]⟩)]
    ∧ listDatasets
        (restoreDatasetsFromDiskFn
          (([("d1", (⟨"alpha", 5, [(0, ⟨0, 0, 10, 2⟩), (1, ⟨1, 10, 20, 1⟩)]⟩ : DatasetMeta)),
             ("d2", ⟨"beta", 9, [(0, ⟨0, 0, 7, 3⟩)]⟩)] : Catalog).map
            fun p => (p.1, saveMetadata p.2)))
      = listDatasets
          [("d1", ⟨"alpha", 5, [(0, ⟨0, 0, 10, 2⟩), (1, ⟨1, 10, 20, 1⟩)]⟩),
           ("d2", ⟨"beta", 9, [(0, ⟨0, 0, 7, 3⟩)]⟩)] :=
  ⟨by decide,
   (restore_left_inverse_of_save
      [("d1", ⟨"alpha", 5, [(0, ⟨0, 0, 10, 2⟩), (1, ⟨1, 10, 20, 1⟩)]⟩),
       ("d2", ⟨"beta", 9, [(0, ⟨0, 0, 7, 3⟩)]⟩)]
      (by decide) (by decide)).1,
   (restore_left_inverse_of_save
      [("d1", ⟨"alpha", 5, [(0, ⟨0, 0, 10, 2⟩), (1, ⟨1, 10, 20, 1⟩)]⟩),
       ("d2", ⟨"beta", 9, [(0, ⟨0, 0, 7, 3⟩)]⟩)]
      (by decide) (by decide)).2⟩

/-- C7 fails on the code (code bug): the connection handler
(index.ts:314-351) puts every accepted connection into `activeWorkers`
without ever reading the `role` handshake parameter, keeps no observer set,
and its message handler matches only `chunk_result` and `chunk_error` — its
body contains no send call at all.  A `worker_progress` frame is therefore
dropped outright: the job registry is returned unchanged and no resolver is
called, and in particular nothing is serialized or forwarded to any observer
connection, although the repository's own `role=controller` client pages
subscribe to exactly that rebroadcast.  This theorem evaluates the embedded
handler on any `worker_progress` frame. -/
theorem worker_progress_dropped (ev : String → JVal → JVal → JVal)
    (jobs : Jobs) (p : String) :
    handleMessage ev jobs (.worker_progress p) = (jobs, []) := rfl
